import Mathlib

/-!
Verification of the drive-gallery media catalog core: the content-addressed
ingestion/deduplication pipeline (`src/backend/firebase.go`), the cursor-based
paginated catalog query engine (`ListFilesFromFirestore`), and the client-side
pagination cursor cache (`src/frontend/src/App.tsx`, `FolderPage`).

The Go backend and the TypeScript frontend are shallowly embedded as pure
Lean functions over explicit state.  Firestore is modelled as in-memory lists
of records; the blob store as an association list from storage paths to byte
contents; `uuid.New()` as a fresh-id counter; `time.Now()` as a clock field.
The SHA-256 fingerprint is modelled as an abstract collision-free digest
(the identity on byte lists): every claim below uses only determinism and
collision-freedom of the digest, which is exactly the spec's contract for the
Hasher ("deterministic, collision-resistant").
-/

namespace DriveGallery

/-- Mirror of `FileMetadata` in `src/backend/firebase.go`.  `id` is the
Firestore document id (the code always stores the record under `Doc(ID)`);
ids are modelled as naturals drawn from a fresh-id counter. -/
structure FileMetadata where
  id : Nat
  name : String
  mimeType : String
  storagePath : String
  downloadUrl : String
  folderId : Option Nat
  hash : List Nat
  createdAt : Nat
deriving DecidableEq

/-- Mirror of `FolderMetadata` in `src/backend/firebase.go`. -/
structure FolderMetadata where
  id : Nat
  name : String
  createdAt : Nat
deriving DecidableEq

/-- `CalculateFileHash` (firebase.go:105): SHA-256 digest of the content,
modelled as an abstract collision-free fingerprint of the byte list. -/
def CalculateFileHash (content : List Nat) : List Nat := content

/-- The blob store: storage path to byte content.  `put` has overwrite
semantics, as guaranteed by the GCS bucket writer used in the code. -/
def blobPut (bs : List (String × List Nat)) (path : String) (content : List Nat) :
    List (String × List Nat) :=
  (path, content) :: bs.filter (fun pc => !(pc.1 == path))

/-- `bucket.Object(path).Delete` : removes the object at `path`. -/
def blobDelete (bs : List (String × List Nat)) (path : String) :
    List (String × List Nat) :=
  bs.filter (fun pc => !(pc.1 == path))

/-- Look up the bytes stored at `path`. -/
def blobGet (bs : List (String × List Nat)) (path : String) : Option (List Nat) :=
  (bs.find? (fun pc => pc.1 == path)).map (fun pc => pc.2)

/-- `attrs.MediaLink` (firebase.go:213): the durable public download URL of a
stored object, a deterministic function of its storage path. -/
def mediaLink (storagePath : String) : String :=
  "https://storage.googleapis.com/download/" ++ storagePath

/-- The whole backend state: the two Firestore collections, the blob store,
the fresh-id source (`uuid.New()`) and the clock (`time.Now()`). -/
structure BackendState where
  folders : List FolderMetadata
  files : List FileMetadata
  blobs : List (String × List Nat)
  nextId : Nat
  now : Nat
deriving DecidableEq

/-- Character-list prefix test. -/
def chPre : List Char → List Char → Bool
  | [], _ => true
  | _ :: _, [] => false
  | a :: as, b :: bs => a == b && chPre as bs

/-- String prefix test (Go `strings.HasPrefix`, JS `String.startsWith`),
modelled on the character lists. -/
def strStarts (s p : String) : Bool :=
  chPre p.toList s.toList

/-- `strings.TrimPrefix(s, "/")` as used at firebase.go:193. -/
def trimLeadingSlash (s : String) : String :=
  if strStarts s "/" then s.drop 1 else s

/-- The suffix of a character list after its last `'/'` (the whole list when
no slash occurs): the filename extraction at firebase.go:220-223. -/
def afterLastSlash : List Char → List Char
  | [] => []
  | c :: rest =>
    if rest.contains '/' then afterLastSlash rest
    else if c == '/' then rest
    else c :: rest

/-- `fileName` derivation (firebase.go:220-223): the final path segment of
`relativePath`. -/
def fileNameOf (relativePath : String) : String :=
  String.mk (afterLastSlash relativePath.toList)

/-- `storagePath` construction (firebase.go:186-193): join the folder id and
the relative path, then trim one leading slash. -/
def storagePathOf (folderID : Option Nat) (relativePath : String) : String :=
  let sp := match folderID with
    | some fid => toString fid ++ "/" ++ relativePath
    | none => relativePath
  trimLeadingSlash sp

/-- Step 1 of `UploadFileToStorageAndFirestore` (firebase.go:123-160): folder
resolution.  An empty folder name maps to the root (modelled `none`);
otherwise an existing `FolderMetadata` with that name is reused, or a new one
is created with a fresh id and the current time. -/
def resolveFolder (st : BackendState) (folderName : String) :
    Option Nat × BackendState :=
  if folderName == "" then
    (none, st)
  else
    match st.folders.find? (fun f => f.name == folderName) with
    | some f => (some f.id, st)
    | none =>
      let newFolder : FolderMetadata :=
        { id := st.nextId, name := folderName, createdAt := st.now }
      (some st.nextId,
        { st with folders := st.folders ++ [newFolder], nextId := st.nextId + 1 })

/-- The `FileMetadata` record built at firebase.go:216-234: a fresh document
id, the final path segment as name, and the storage path, URL, folder,
fingerprint and creation time of this ingestion. -/
def newFileRecord (fileDocID : Nat) (folderID : Option Nat)
    (relativePath mimeType : String) (fileHash : List Nat) (now : Nat) :
    FileMetadata :=
  { id := fileDocID, name := fileNameOf relativePath, mimeType := mimeType,
    storagePath := storagePathOf folderID relativePath,
    downloadUrl := mediaLink (storagePathOf folderID relativePath),
    folderId := folderID, hash := fileHash, createdAt := now }

/-- `UploadFileToStorageAndFirestore` (firebase.go:117-249).  In source
order: hash the content, resolve the folder (creating it if absent), then
check the dedup index; on a hash hit return the existing record's
`DownloadURL` without touching storage; otherwise write the blob, build the
metadata record and write it.  `recordWriteOk` models whether the Firestore
`Set` of the file record succeeds; on failure the code attempts to delete the
just-written blob (`deleteOk` models whether that compensation delete
succeeds; its error is only logged) and returns the persist error. -/
def UploadFileToStorageAndFirestore (st : BackendState)
    (folderName relativePath mimeType : String) (content : List Nat)
    (recordWriteOk deleteOk : Bool) : Except String String × BackendState :=
  let fileHash := CalculateFileHash content
  let fr := resolveFolder st folderName
  let folderID := fr.1
  let st1 := fr.2
  match st1.files.find? (fun f => f.hash == fileHash) with
  | some existing => (Except.ok existing.downloadUrl, st1)
  | none =>
    let sp := storagePathOf folderID relativePath
    let st2 := { st1 with blobs := blobPut st1.blobs sp content }
    let fm := newFileRecord st2.nextId folderID relativePath mimeType fileHash
      st2.now
    if recordWriteOk then
      (Except.ok (mediaLink sp),
        { st2 with files := st2.files ++ [fm], nextId := st2.nextId + 1 })
    else
      (Except.error "failed to save file metadata to Firestore",
        { st2 with
            blobs := if deleteOk then blobDelete st2.blobs sp else st2.blobs,
            nextId := st2.nextId + 1 })

/-- Strict ordering on the Firestore sort key of the files query: `createdAt`
with document id as tie-breaker (Firestore appends the document name to every
explicit ordering, making the total order stable). -/
def keyLt (a b : FileMetadata) : Bool :=
  a.createdAt < b.createdAt || (a.createdAt == b.createdAt && a.id < b.id)

/-- Insert into a list sorted by descending sort key (newest first). -/
def insertDesc (x : FileMetadata) : List FileMetadata → List FileMetadata
  | [] => [x]
  | y :: ys => if keyLt x y then y :: insertDesc x ys else x :: y :: ys

/-- Sort records by descending sort key: `OrderBy("createdAt", Desc)` with
the document-id tie-break (firebase.go:269). -/
def sortDesc : List FileMetadata → List FileMetadata
  | [] => []
  | x :: xs => insertDesc x (sortDesc xs)

/-- Byte-order lexicographic strict comparison on strings, as Firestore and
Go compare string fields (UTF-8 byte order agrees with code-point order). -/
def chLt : List Char → List Char → Bool
  | _, [] => false
  | [], _ :: _ => true
  | a :: as, b :: bs =>
    if a.toNat < b.toNat then true
    else if b.toNat < a.toNat then false
    else chLt as bs

def strLtB (a b : String) : Bool := chLt a.toList b.toList

def strLeB (a b : String) : Bool := !(strLtB b a)

/-- The `filterType` switch of `ListFilesFromFirestore` (firebase.go:273-282):
`image` keeps `"image/" <= mimeType < "imagf"`, `video` keeps
`"video/" <= mimeType < "videp"`, anything else applies no restriction. -/
def mimeTypePasses (filterType mimeType : String) : Bool :=
  if filterType == "image" then
    strLeB "image/" mimeType && strLtB mimeType "imagf"
  else if filterType == "video" then
    strLeB "video/" mimeType && strLtB mimeType "videp"
  else
    true

/-- The `Where` clauses of the files query (firebase.go:269,273-282): the
records of the requested folder passing the mime range filter. -/
def candidatesOf (files : List FileMetadata) (folderID : Option Nat)
    (filterType : String) : List FileMetadata :=
  files.filter
    (fun f => f.folderId == folderID && mimeTypePasses filterType f.mimeType)

/-- Cursor resolution and `StartAfter` (firebase.go:284-292): an absent
cursor starts at the top; a present cursor fetches the referenced boundary
document from the `files` collection — an error when it no longer exists —
and resumes strictly after its sort position. -/
def resolveCursor (files sorted : List FileMetadata) (lastDocID : Option Nat) :
    Except String (List FileMetadata) :=
  match lastDocID with
  | none => Except.ok sorted
  | some d =>
    match files.find? (fun f => f.id == d) with
    | none => Except.error "failed to get last document snapshot"
    | some snap => Except.ok (sorted.filter (fun r => keyLt r snap))

/-- `ListFilesFromFirestore` (firebase.go:265-319).  Filter the `files`
collection by `folderId` and the mime range, order newest-first, resolve the
cursor, return up to `pageSize` records, and return the document id of the
last returned record as the next cursor (`none`, the empty string, when no
records were returned). -/
def ListFilesFromFirestore (files : List FileMetadata) (folderID : Option Nat)
    (pageSize : Nat) (lastDocID : Option Nat) (filterType : String) :
    Except String (List FileMetadata × Option Nat) :=
  match resolveCursor files (sortDesc (candidatesOf files folderID filterType))
      lastDocID with
  | Except.error e => Except.error e
  | Except.ok rest =>
    let page := rest.take pageSize
    Except.ok (page, page.getLast?.map (fun f => f.id))

/-- The full result set of a `list` call with a large enough page size and
no cursor (used to state the filter-correctness property). -/
def listPage (files : List FileMetadata) (folderID : Option Nat)
    (pageSize : Nat) (filterType : String) : List FileMetadata :=
  match ListFilesFromFirestore files folderID pageSize none filterType with
  | Except.ok pn => pn.1
  | Except.error _ => []

/-- `GetFolderNameFromFirestore` (firebase.go:352-366): a missing folder
document yields the Go client's not-found error together with a snapshot
whose `Exists()` is false, which the code turns into `("Unknown Folder", nil)`;
a present document yields its `name`. -/
def GetFolderNameFromFirestore (folders : List FolderMetadata) (folderID : Nat) :
    Except String String :=
  match folders.find? (fun f => f.id == folderID) with
  | none => Except.ok "Unknown Folder"
  | some f => Except.ok f.name

/-- `n` successive `ListFilesFromFirestore` calls chained through the
returned cursors (stopping early on an error or an empty next cursor),
concatenating the returned pages. -/
def listChain (files : List FileMetadata) (folderID : Option Nat)
    (pageSize : Nat) (filterType : String) : Nat → Option Nat → List FileMetadata
  | 0, _ => []
  | Nat.succ k, cur =>
    match ListFilesFromFirestore files folderID pageSize cur filterType with
    | Except.error _ => []
    | Except.ok (page, next) =>
      match next with
      | none => page
      | some d => page ++ listChain files folderID pageSize filterType k (some d)

/-- Number of file records carrying a given content hash. -/
def countHash (files : List FileMetadata) (h : List Nat) : Nat :=
  (files.filter (fun f => f.hash == h)).length

/-! ## Frontend model: the pagination cursor cache of `FolderPage`
(`src/frontend/src/App.tsx`).

Page tokens are the backend cursors: `Option Nat`, with `none` standing for
the empty-string token `''`.  The JS `Map<number, string>` is an association
list, so a lookup distinguishes `undefined` (key absent, `none`) from a
present empty token (`some none`).  Event handlers run atomically here
(`isNavigating` guards against overlapping walks in the browser; the model
has no interleaving).  Navigating to a different folder mounts a fresh
`FolderPage` component, i.e. restarts from `initialFolderPageState`. -/

/-- `pageSize` constant of `FolderPage` (App.tsx:103). -/
def pageSize : Nat := 20

/-- `getFileType` (App.tsx:106-110): the top-level MIME category as the
frontend determines it. -/
def getFileType (mimeType : String) : String :=
  if strStarts mimeType "image/" then "image"
  else if strStarts mimeType "video/" then "video"
  else "other"

/-- Lookup in the `Map<number, string>` model: `none` means the key is
absent (`undefined`), `some tok` the stored token. -/
def mapLookup (m : List (Nat × Option Nat)) (k : Nat) : Option (Option Nat) :=
  (m.find? (fun kv => kv.1 == k)).map (fun kv => kv.2)

/-- `Map.set`: update the key in place if present, else append it. -/
def mapSet (m : List (Nat × Option Nat)) (k : Nat) (v : Option Nat) :
    List (Nat × Option Nat) :=
  if (m.find? (fun kv => kv.1 == k)).isSome then
    m.map (fun kv => if kv.1 == k then (k, v) else kv)
  else
    m ++ [(k, v)]

/-- The pagination-relevant state of `FolderPage` (App.tsx:96-103). -/
structure FolderPageState where
  currentPageToken : Option Nat
  previousPageTokens : List (Option Nat)
  currentPageNumber : Nat
  pageTokenMap : List (Nat × Option Nat)
  estimatedTotalPages : Nat
  filter : String
deriving DecidableEq

/-- The `useState` initial values of `FolderPage` (App.tsx:93,96-101). -/
def initialFolderPageState : FolderPageState :=
  { currentPageToken := none, previousPageTokens := [none],
    currentPageNumber := 1, pageTokenMap := [(1, none)],
    estimatedTotalPages := 5, filter := "all" }

/-- One `GET /api/files/...` round trip: the frontend sends the `filter`
query parameter only when the filter is not `'all'` (App.tsx:153-156), the
handler passes it to `ListFilesFromFirestore`; an HTTP error becomes `none`. -/
def fetchPage (files : List FileMetadata) (fid : Option Nat) (filt : String)
    (tok : Option Nat) : Option (List FileMetadata × Option Nat) :=
  let filterParam := if filt == "all" then "" else filt
  match ListFilesFromFirestore files fid pageSize tok filterParam with
  | Except.ok pn => some pn
  | Except.error _ => none

/-- The records the page displays: the data of the query for the current
token (empty while errored/absent). -/
def shownRecords (files : List FileMetadata) (fid : Option Nat)
    (s : FolderPageState) : List FileMetadata :=
  match fetchPage files fid s.filter s.currentPageToken with
  | some pn => pn.1
  | none => []

/-- `handleNextPage` (App.tsx:180-195): acts only when the current query
data carries a non-empty `nextPageToken`. -/
def handleNextPage (files : List FileMetadata) (fid : Option Nat)
    (s : FolderPageState) : FolderPageState :=
  match fetchPage files fid s.filter s.currentPageToken with
  | some (_, some t) =>
    let nextPageNum := s.currentPageNumber + 1
    { s with
        previousPageTokens := s.previousPageTokens ++ [s.currentPageToken],
        currentPageToken := some t,
        currentPageNumber := nextPageNum,
        pageTokenMap := mapSet s.pageTokenMap nextPageNum (some t),
        estimatedTotalPages :=
          if s.estimatedTotalPages < nextPageNum then nextPageNum + 2
          else s.estimatedTotalPages }
  | _ => s

/-- `handlePreviousPage` (App.tsx:197-205): pop the last previously-current
token from the LIFO history. -/
def handlePreviousPage (s : FolderPageState) : FolderPageState :=
  if 0 < s.previousPageTokens.length then
    { s with
        currentPageToken := (s.previousPageTokens.getLast?).getD none,
        previousPageTokens := s.previousPageTokens.dropLast,
        currentPageNumber := s.currentPageNumber - 1 }
  else s

/-- `hasNextPage` (App.tsx:300): the current query data has a non-empty
`nextPageToken`. -/
def hasNextPage (files : List FileMetadata) (fid : Option Nat)
    (s : FolderPageState) : Bool :=
  match fetchPage files fid s.filter s.currentPageToken with
  | some (_, some _) => true
  | _ => false

/-- `hasPreviousPage` (App.tsx:301). -/
def hasPreviousPage (s : FolderPageState) : Bool :=
  decide (1 < s.previousPageTokens.length) ||
    (s.previousPageTokens.length == 1 && !(s.currentPageToken == none))

/-- The loop body of `navigateForwardTo` (App.tsx:248-276), with fuel equal
to the remaining distance: while the target is not reached, fetch the page at
the current token; on a non-empty `nextPageToken` record it and advance, on
an empty one (or a fetch failure) stop.  Returns the final
(page, token, history, map). -/
def forwardWalk (files : List FileMetadata) (fid : Option Nat) (filt : String) :
    Nat → Nat → Option Nat → List (Option Nat) → List (Nat × Option Nat) →
    Nat × Option Nat × List (Option Nat) × List (Nat × Option Nat)
  | 0, cp, ct, prevs, m => (cp, ct, prevs, m)
  | Nat.succ fuel, cp, ct, prevs, m =>
    match fetchPage files fid filt ct with
    | some (_, some t) =>
      forwardWalk files fid filt fuel (cp + 1) (some t) (prevs ++ [ct])
        (mapSet m (cp + 1) (some t))
    | _ => (cp, ct, prevs, m)

/-- `navigateForwardTo` (App.tsx:242-283). -/
def navigateForwardTo (files : List FileMetadata) (fid : Option Nat)
    (s : FolderPageState) (targetPage : Nat) : FolderPageState :=
  let w := forwardWalk files fid s.filter (targetPage - s.currentPageNumber)
    s.currentPageNumber s.currentPageToken s.previousPageTokens s.pageTokenMap
  { s with currentPageNumber := w.1, currentPageToken := w.2.1,
           previousPageTokens := w.2.2.1, pageTokenMap := w.2.2.2 }

/-- `navigateBackwardTo` (App.tsx:285-298): jump to a cached (or defaulted)
token and rebuild the history list by replaying `pageTokenMap[1..target-1]`. -/
def navigateBackwardTo (s : FolderPageState) (targetPage : Nat) :
    FolderPageState :=
  if targetPage < 1 then s
  else
    { s with
        currentPageToken := (mapLookup s.pageTokenMap targetPage).getD none,
        currentPageNumber := targetPage,
        previousPageTokens := [none] ++
          (List.range' 2 (targetPage - 1)).map
            (fun i => (mapLookup s.pageTokenMap (i - 1)).getD none) }

/-- `handlePageClick` (App.tsx:207-240): no-op on the current page; direct
jump plus history rebuild when the target page's token is cached (the rebuild
replays only cached entries); otherwise a forward discovery walk (target
ahead) or a backward jump (target behind). -/
def handlePageClick (files : List FileMetadata) (fid : Option Nat)
    (s : FolderPageState) (pageNumber : Nat) : FolderPageState :=
  if pageNumber == s.currentPageNumber then s
  else
    match mapLookup s.pageTokenMap pageNumber with
    | some token =>
      { s with
          currentPageToken := token,
          currentPageNumber := pageNumber,
          previousPageTokens := [none] ++
            (List.range' 2 (pageNumber - 1)).filterMap
              (fun i =>
                if (mapLookup s.pageTokenMap i).isSome then
                  some ((mapLookup s.pageTokenMap (i - 1)).getD none)
                else none) }
    | none =>
      if s.currentPageNumber < pageNumber then
        navigateForwardTo files fid s pageNumber
      else
        navigateBackwardTo s pageNumber

/-- A filter-button click (App.tsx:499-525): set the filter and reset the
whole pagination state to the page-1 seed. -/
def setFilter (f : String) (s : FolderPageState) : FolderPageState :=
  { s with filter := f, currentPageToken := none,
           previousPageTokens := [none], currentPageNumber := 1,
           pageTokenMap := [(1, none)], estimatedTotalPages := 5 }

/-- Iterate `handleNextPage` (the `goToNext` operation) `n` times. -/
def iterNext (files : List FileMetadata) (fid : Option Nat) :
    Nat → FolderPageState → FolderPageState
  | 0, s => s
  | Nat.succ k, s => iterNext files fid k (handleNextPage files fid s)

/-- The states a mounted `FolderPage` can be in: the initial mount state
followed by any sequence of user events, each fired only when its control is
enabled (`hasPreviousPage` gates the previous button; page-number buttons
exist for pages `1..currentEstimatedPages`, hence ≥ 1; the filter buttons
carry the three literal filters). -/
inductive Reachable (files : List FileMetadata) (fid : Option Nat) :
    FolderPageState → Prop
  | init : Reachable files fid initialFolderPageState
  | next {s} : Reachable files fid s →
      Reachable files fid (handleNextPage files fid s)
  | prev {s} : Reachable files fid s → hasPreviousPage s = true →
      Reachable files fid (handlePreviousPage s)
  | click {s} {n : Nat} : Reachable files fid s → 1 ≤ n →
      Reachable files fid (handlePageClick files fid s n)
  | filterChange {s} {f : String} : Reachable files fid s →
      f = "all" ∨ f = "image" ∨ f = "video" →
      Reachable files fid (setFilter f s)

/-- The navigation core of the state: everything except
`estimatedTotalPages` (a display hint) and the filter. -/
def core (s : FolderPageState) :
    Nat × Option Nat × List (Option Nat) × List (Nat × Option Nat) :=
  (s.currentPageNumber, s.currentPageToken, s.previousPageTokens,
    s.pageTokenMap)

/-- The inductive invariant of the navigation core
`(currentPageNumber, currentPageToken, previousPageTokens, pageTokenMap)`:
page 1 is cached with the empty token; the page number is positive and
equals the history length; at page 1 the current token is empty; the second
history entry (the token of page 1) is the empty token; and the cached page
numbers form a contiguous range `1..k` containing the current page. -/
def stepInv : Nat × Option Nat × List (Option Nat) × List (Nat × Option Nat) →
    Prop
  | (cp, ct, prevs, m) =>
    mapLookup m 1 = some none ∧
    1 ≤ cp ∧
    prevs.length = cp ∧
    (cp = 1 → ct = none) ∧
    (2 ≤ prevs.length → prevs[1]? = some none) ∧
    ∃ k, cp ≤ k ∧ ∀ i, (mapLookup m i).isSome = true ↔ (1 ≤ i ∧ i ≤ k)

/-! ## Concrete fixtures used by witnesses and counterexamples -/

/-- A backend state with empty collections. -/
def emptySt : BackendState :=
  { folders := [], files := [], blobs := [], nextId := 0, now := 0 }

/-- A catalogued image file in folder `0`. -/
def exFile1 : FileMetadata :=
  { id := 10, name := "a.jpg", mimeType := "image/jpeg",
    storagePath := "0/a.jpg", downloadUrl := "u1", folderId := some 0,
    hash := [1], createdAt := 5 }

/-- A record in folder `0` whose mime type falls inside the backend's
`["image/", "imagf")` range without having top-level category `image`. -/
def exOdd : FileMetadata :=
  { id := 11, name := "weird", mimeType := "image1/fake",
    storagePath := "0/weird", downloadUrl := "u2", folderId := some 0,
    hash := [2], createdAt := 6 }

/-- A backend state holding one catalogued file and no folder records. -/
def exSt1 : BackendState :=
  { folders := [], files := [exFile1], blobs := [("0/a.jpg", [1])],
    nextId := 50, now := 9 }

/-- A file in folder `0` with the given id and creation time. -/
def mkFile (i t : Nat) : FileMetadata :=
  { id := i, name := "f", mimeType := "image/jpeg", storagePath := "p",
    downloadUrl := "u", folderId := some 0, hash := [i], createdAt := t }

/-! ## Basic lemmas about the embedded operations -/

theorem resolveFolder_files (st : BackendState) (fn : String) :
    (resolveFolder st fn).2.files = st.files := by
  unfold resolveFolder
  split
  · rfl
  · split <;> rfl

theorem resolveFolder_blobs (st : BackendState) (fn : String) :
    (resolveFolder st fn).2.blobs = st.blobs := by
  unfold resolveFolder
  split
  · rfl
  · split <;> rfl

theorem blobGet_blobDelete (bs : List (String × List Nat)) (p : String) :
    blobGet (blobDelete bs p) p = none := by
  have h : (blobDelete bs p).find? (fun pc => pc.1 == p) = none := by
    rw [List.find?_eq_none]
    intro x hx
    simpa using (List.mem_filter.mp hx).2
  simp [blobGet, h]

/-! ## C10: missing folder ids resolve to "Unknown Folder" -/

/-- C10: for every folderId with no FolderRecord in the catalog,
get-folder-name returns the literal name "Unknown Folder" with no error. -/
theorem claim10_unknown_folder_name (folders : List FolderMetadata) (fid : Nat)
    (h : folders.find? (fun f => f.id == fid) = none) :
    GetFolderNameFromFirestore folders fid = Except.ok "Unknown Folder" := by
  unfold GetFolderNameFromFirestore
  rw [h]

theorem claim10_unknown_folder_name_witness :
    ([] : List FolderMetadata).find? (fun f => f.id == 7) = none ∧
    GetFolderNameFromFirestore [] 7 = Except.ok "Unknown Folder" :=
  ⟨rfl, claim10_unknown_folder_name [] 7 rfl⟩

/-! ## C9: the cursor is the last returned document id, and resolving a
cursor whose boundary record was deleted fails -/

/-- C9: on every successful list call the returned next cursor is the
document id of the last record of the returned page (empty cursor when the
page is empty), and a call whose cursor references a document absent from
the files collection fails with the snapshot-fetch error. -/
theorem claim9_cursor_semantics :
    (∀ (files : List FileMetadata) (fid : Option Nat) (ps : Nat)
        (cur : Option Nat) (ft : String) (page : List FileMetadata)
        (next : Option Nat),
      ListFilesFromFirestore files fid ps cur ft = Except.ok (page, next) →
      next = page.getLast?.map (fun f => f.id)) ∧
    (∀ (files : List FileMetadata) (fid : Option Nat) (ps : Nat) (d : Nat)
        (ft : String),
      files.find? (fun f => f.id == d) = none →
      ListFilesFromFirestore files fid ps (some d) ft =
        Except.error "failed to get last document snapshot") := by
  constructor
  · intro files fid ps cur ft page next h
    cases hres : resolveCursor files (sortDesc (candidatesOf files fid ft)) cur with
    | error e =>
      simp only [ListFilesFromFirestore, hres] at h
      exact Except.noConfusion h
    | ok rest =>
      simp only [ListFilesFromFirestore, hres, Except.ok.injEq,
        Prod.mk.injEq] at h
      rw [← h.1, ← h.2]
  · intro files fid ps d ft h
    simp only [ListFilesFromFirestore, resolveCursor, h]

theorem claim9_cursor_semantics_witness :
    (ListFilesFromFirestore [exFile1] (some 0) 1 none "all" =
        Except.ok ([exFile1], some 10) →
      some 10 = [exFile1].getLast?.map (fun f => f.id)) ∧
    ([] : List FileMetadata).find? (fun f => f.id == 3) = none ∧
    ListFilesFromFirestore [] (some 0) 1 (some 3) "all" =
      Except.error "failed to get last document snapshot" :=
  ⟨fun h => claim9_cursor_semantics.1 [exFile1] (some 0) 1 none "all"
      [exFile1] (some 10) h,
    rfl, claim9_cursor_semantics.2 [] (some 0) 1 3 "all" rfl⟩

/-! ## C2: when is the returned cursor empty? -/

/-- C2 counterexample: a call that returns the final records of the folder
(nothing follows `exFile1`) still returns a non-empty next cursor; only the
subsequent call, which returns zero records, returns an empty cursor.  This
refutes "nextCursor is empty iff the returned page is the last page". -/
theorem claim2_counterexample :
    ListFilesFromFirestore [exFile1] (some 0) 1 none "all" =
      Except.ok ([exFile1], some 10) ∧
    ListFilesFromFirestore [exFile1] (some 0) 1 (some 10) "all" =
      Except.ok ([], none) := by
  constructor <;> rfl

/-- C2 amended: the returned nextCursor is empty if and only if the returned
page itself is empty (the code returns the last returned document id, so a
full final page still carries a non-empty cursor and an extra empty-page
call is needed to observe the end). -/
theorem claim2_amended_empty_cursor_iff_empty_page
    (files : List FileMetadata) (fid : Option Nat) (ps : Nat)
    (cur : Option Nat) (ft : String) (page : List FileMetadata)
    (next : Option Nat)
    (h : ListFilesFromFirestore files fid ps cur ft = Except.ok (page, next)) :
    next = none ↔ page = [] := by
  cases hres : resolveCursor files (sortDesc (candidatesOf files fid ft)) cur with
  | error e =>
    simp only [ListFilesFromFirestore, hres] at h
    exact Except.noConfusion h
  | ok rest =>
    simp only [ListFilesFromFirestore, hres, Except.ok.injEq,
      Prod.mk.injEq] at h
    rw [← h.1, ← h.2]
    simp [List.getLast?_eq_none_iff]

theorem claim2_amended_empty_cursor_iff_empty_page_witness :
    ListFilesFromFirestore [exFile1] (some 0) 1 none "all" =
      Except.ok ([exFile1], some 10) ∧ ((some 10 : Option Nat) = none ↔
      ([exFile1] : List FileMetadata) = []) :=
  ⟨rfl, claim2_amended_empty_cursor_iff_empty_page [exFile1] (some 0) 1 none
    "all" [exFile1] (some 10) rfl⟩

/-! ## C8: persist failure after the blob write is compensated and
surfaced -/

/-- C8: when the FileRecord write fails after the blob was stored (novel
content, `recordWriteOk = false`), ingestion returns the persist failure —
never success — for either outcome of the compensation delete, and when the
compensation delete succeeds the orphaned blob is gone. -/
theorem claim8_persist_failure_compensation (st : BackendState)
    (fn rp mt : String) (content : List Nat) (delOk : Bool)
    (hmiss : st.files.find? (fun f => f.hash == CalculateFileHash content) =
      none) :
    (UploadFileToStorageAndFirestore st fn rp mt content false delOk).1 =
      Except.error "failed to save file metadata to Firestore" ∧
    (delOk = true →
      blobGet
        (UploadFileToStorageAndFirestore st fn rp mt content false delOk).2.blobs
        (storagePathOf (resolveFolder st fn).1 rp) = none) := by
  have hm : (resolveFolder st fn).2.files.find?
      (fun f => f.hash == CalculateFileHash content) = none := by
    rw [resolveFolder_files]; exact hmiss
  constructor
  · simp only [UploadFileToStorageAndFirestore, hm, Bool.false_eq_true,
      if_false]
  · intro hd
    subst hd
    simp only [UploadFileToStorageAndFirestore, hm, Bool.false_eq_true,
      if_false, if_true]
    exact blobGet_blobDelete _ _

theorem claim8_persist_failure_compensation_witness :
    ((emptySt.files.find?
        (fun f => f.hash == CalculateFileHash [9]) = none) ∧
      (UploadFileToStorageAndFirestore emptySt "E1" "x.jpg" "image/jpeg" [9]
          false true).1 =
        Except.error "failed to save file metadata to Firestore" ∧
      blobGet
        (UploadFileToStorageAndFirestore emptySt "E1" "x.jpg" "image/jpeg" [9]
          false true).2.blobs
        (storagePathOf (resolveFolder emptySt "E1").1 "x.jpg") = none) := by
  refine ⟨rfl, ?_, ?_⟩
  · exact (claim8_persist_failure_compensation emptySt "E1" "x.jpg"
      "image/jpeg" [9] true rfl).1
  · exact (claim8_persist_failure_compensation emptySt "E1" "x.jpg"
      "image/jpeg" [9] true rfl).2 rfl

/-! ## Dedup behaviour of ingestion (shared lemmas for C1 and C3) -/

theorem upload_dedup_hit (st : BackendState) (fn rp mt : String)
    (content : List Nat) (rwOk dk : Bool) (e : FileMetadata)
    (h : st.files.find? (fun f => f.hash == CalculateFileHash content) =
      some e) :
    UploadFileToStorageAndFirestore st fn rp mt content rwOk dk =
      (Except.ok e.downloadUrl, (resolveFolder st fn).2) := by
  have hm : (resolveFolder st fn).2.files.find?
      (fun f => f.hash == CalculateFileHash content) = some e := by
    rw [resolveFolder_files]; exact h
  simp only [UploadFileToStorageAndFirestore, hm]

theorem upload_dedup_miss (st : BackendState) (fn rp mt : String)
    (content : List Nat) (dk : Bool)
    (h : st.files.find? (fun f => f.hash == CalculateFileHash content) =
      none) :
    UploadFileToStorageAndFirestore st fn rp mt content true dk =
      (Except.ok (mediaLink (storagePathOf (resolveFolder st fn).1 rp)),
        { (resolveFolder st fn).2 with
            blobs := blobPut (resolveFolder st fn).2.blobs
              (storagePathOf (resolveFolder st fn).1 rp) content,
            files := (resolveFolder st fn).2.files ++
              [newFileRecord (resolveFolder st fn).2.nextId
                (resolveFolder st fn).1 rp mt (CalculateFileHash content)
                (resolveFolder st fn).2.now],
            nextId := (resolveFolder st fn).2.nextId + 1 }) := by
  have hm : (resolveFolder st fn).2.files.find?
      (fun f => f.hash == CalculateFileHash content) = none := by
    rw [resolveFolder_files]; exact h
  simp only [UploadFileToStorageAndFirestore, hm]
  rfl

/-! ## C1: dedup idempotence -/

/-- C1: under the documented invariant that a content hash occurs on at most
one FileRecord, ingesting the same bytes twice (any folder labels, any
relative paths) returns the same retrievalUrl both times; afterwards exactly
one FileRecord with that contentHash exists, and the second call writes no
bytes and creates no new FileRecord. -/
theorem claim1_dedup_idempotent (st : BackendState)
    (fn1 rp1 mt1 fn2 rp2 mt2 : String) (content : List Nat)
    (hinv : countHash st.files (CalculateFileHash content) ≤ 1) :
    ∃ url : String,
      (UploadFileToStorageAndFirestore st fn1 rp1 mt1 content true true).1 =
        Except.ok url ∧
      (UploadFileToStorageAndFirestore
          (UploadFileToStorageAndFirestore st fn1 rp1 mt1 content true true).2
          fn2 rp2 mt2 content true true).1 = Except.ok url ∧
      (UploadFileToStorageAndFirestore
          (UploadFileToStorageAndFirestore st fn1 rp1 mt1 content true true).2
          fn2 rp2 mt2 content true true).2.files =
        (UploadFileToStorageAndFirestore st fn1 rp1 mt1 content true true).2.files ∧
      (UploadFileToStorageAndFirestore
          (UploadFileToStorageAndFirestore st fn1 rp1 mt1 content true true).2
          fn2 rp2 mt2 content true true).2.blobs =
        (UploadFileToStorageAndFirestore st fn1 rp1 mt1 content true true).2.blobs ∧
      countHash
        (UploadFileToStorageAndFirestore
          (UploadFileToStorageAndFirestore st fn1 rp1 mt1 content true true).2
          fn2 rp2 mt2 content true true).2.files
        (CalculateFileHash content) = 1 := by
  cases hfind : st.files.find?
      (fun f => f.hash == CalculateFileHash content) with
  | some e =>
    have h1 := upload_dedup_hit st fn1 rp1 mt1 content true true e hfind
    have hfiles1 :
        (UploadFileToStorageAndFirestore st fn1 rp1 mt1 content true true).2.files
          = st.files := by
      rw [h1]; exact resolveFolder_files st fn1
    have hfind2 :
        (UploadFileToStorageAndFirestore st fn1 rp1 mt1 content true
          true).2.files.find?
          (fun f => f.hash == CalculateFileHash content) = some e := by
      rw [hfiles1]; exact hfind
    have h2 := upload_dedup_hit _ fn2 rp2 mt2 content true true e hfind2
    have hfiles2 :
        (UploadFileToStorageAndFirestore
          (UploadFileToStorageAndFirestore st fn1 rp1 mt1 content true true).2
          fn2 rp2 mt2 content true true).2.files
          = st.files := by
      rw [h2, resolveFolder_files]; exact hfiles1
    refine ⟨e.downloadUrl, by rw [h1], by rw [h2], ?_, ?_, ?_⟩
    · rw [hfiles2, hfiles1]
    · rw [h2, resolveFolder_blobs]
    · rw [hfiles2]
      have hpe := @List.find?_some _
        (fun f => f.hash == CalculateFileHash content) e st.files hfind
      have hmem : e ∈ st.files.filter
          (fun f => f.hash == CalculateFileHash content) :=
        List.mem_filter.mpr ⟨List.mem_of_find?_eq_some hfind, hpe⟩
      have hpos : 0 < countHash st.files (CalculateFileHash content) :=
        List.length_pos_of_mem hmem
      unfold countHash at hinv hpos ⊢
      omega
  | none =>
    have key := upload_dedup_miss st fn1 rp1 mt1 content true hfind
    set fm := newFileRecord (resolveFolder st fn1).2.nextId
      (resolveFolder st fn1).1 rp1 mt1 (CalculateFileHash content)
      (resolveFolder st fn1).2.now with hfmdef
    have hfiles1' :
        (UploadFileToStorageAndFirestore st fn1 rp1 mt1 content true true).2.files
          = st.files ++ [fm] := by
      rw [key]
      show (resolveFolder st fn1).2.files ++ [fm] = st.files ++ [fm]
      rw [resolveFolder_files]
    have hfm : (fun f => f.hash == CalculateFileHash content) fm = true := by
      show (fm.hash == CalculateFileHash content) = true
      rw [hfmdef]
      exact beq_self_eq_true _
    have hfind2 :
        (UploadFileToStorageAndFirestore st fn1 rp1 mt1 content true
          true).2.files.find?
          (fun f => f.hash == CalculateFileHash content) = some fm := by
      rw [hfiles1', List.find?_append, hfind]
      simp [List.find?, hfm]
    have h2 := upload_dedup_hit _ fn2 rp2 mt2 content true true fm hfind2
    have hfiles2 :
        (UploadFileToStorageAndFirestore
          (UploadFileToStorageAndFirestore st fn1 rp1 mt1 content true true).2
          fn2 rp2 mt2 content true true).2.files
          = st.files ++ [fm] := by
      rw [h2, resolveFolder_files]; exact hfiles1'
    have hurl1 :
        (UploadFileToStorageAndFirestore st fn1 rp1 mt1 content true true).1 =
          Except.ok fm.downloadUrl := by
      rw [key]; rfl
    refine ⟨fm.downloadUrl, hurl1, by rw [h2], ?_, ?_, ?_⟩
    · rw [hfiles2, hfiles1']
    · rw [h2, resolveFolder_blobs]
    · rw [hfiles2]
      have hz : st.files.filter
          (fun f => f.hash == CalculateFileHash content) = [] :=
        List.filter_eq_nil_iff.mpr (List.find?_eq_none.mp hfind)
      unfold countHash
      rw [List.filter_append, hz]
      simp [hfm]

theorem claim1_dedup_idempotent_witness :
    countHash emptySt.files (CalculateFileHash [1, 2]) ≤ 1 ∧
    ∃ url : String,
      (UploadFileToStorageAndFirestore emptySt "E1" "a/p.jpg" "image/jpeg"
        [1, 2] true true).1 = Except.ok url ∧
      (UploadFileToStorageAndFirestore
          (UploadFileToStorageAndFirestore emptySt "E1" "a/p.jpg" "image/jpeg"
            [1, 2] true true).2
          "E2" "b/q.jpg" "image/png" [1, 2] true true).1 = Except.ok url ∧
      (UploadFileToStorageAndFirestore
          (UploadFileToStorageAndFirestore emptySt "E1" "a/p.jpg" "image/jpeg"
            [1, 2] true true).2
          "E2" "b/q.jpg" "image/png" [1, 2] true true).2.files =
        (UploadFileToStorageAndFirestore emptySt "E1" "a/p.jpg" "image/jpeg"
          [1, 2] true true).2.files ∧
      (UploadFileToStorageAndFirestore
          (UploadFileToStorageAndFirestore emptySt "E1" "a/p.jpg" "image/jpeg"
            [1, 2] true true).2
          "E2" "b/q.jpg" "image/png" [1, 2] true true).2.blobs =
        (UploadFileToStorageAndFirestore emptySt "E1" "a/p.jpg" "image/jpeg"
          [1, 2] true true).2.blobs ∧
      countHash
        (UploadFileToStorageAndFirestore
          (UploadFileToStorageAndFirestore emptySt "E1" "a/p.jpg" "image/jpeg"
            [1, 2] true true).2
          "E2" "b/q.jpg" "image/png" [1, 2] true true).2.files
        (CalculateFileHash [1, 2]) = 1 :=
  ⟨by decide,
    claim1_dedup_idempotent emptySt "E1" "a/p.jpg" "image/jpeg" "E2" "b/q.jpg"
      "image/png" [1, 2] (by decide)⟩

/-! ## C3: dedup hit versus folder creation -/

/-- C3 counterexample: ingesting bytes whose fingerprint matches the
existing record `exFile1` under the never-seen folder label `"NewLabel"`
returns the existing retrievalUrl, yet the folders collection changes: a new
FolderRecord is created, because in the code folder resolution precedes the
dedup lookup. -/
theorem claim3_counterexample :
    exSt1.files.find? (fun f => f.hash == CalculateFileHash [1]) =
      some exFile1 ∧
    (UploadFileToStorageAndFirestore exSt1 "NewLabel" "b/x.jpg" "image/png"
      [1] true true).1 = Except.ok "u1" ∧
    (UploadFileToStorageAndFirestore exSt1 "NewLabel" "b/x.jpg" "image/png"
      [1] true true).2.folders ≠ exSt1.folders := by
  refine ⟨rfl, rfl, by decide⟩

/-- C3 amended: a dedup-hit ingest returns the existing retrievalUrl
immediately and writes no bytes and no FileRecord, but — because folder
resolution (step 1 in the code) precedes the dedup lookup (step 2) — a new
FolderRecord is created whenever the submitted non-empty folder label has
never been seen. -/
theorem claim3_amended_folder_created_on_dedup_hit (st : BackendState)
    (fn rp mt : String) (content : List Nat) (e : FileMetadata)
    (hfn : ¬ fn = "")
    (hnew : st.folders.find? (fun f => f.name == fn) = none)
    (hhit : st.files.find? (fun f => f.hash == CalculateFileHash content) =
      some e) :
    (UploadFileToStorageAndFirestore st fn rp mt content true true).1 =
      Except.ok e.downloadUrl ∧
    (UploadFileToStorageAndFirestore st fn rp mt content true true).2.files =
      st.files ∧
    (UploadFileToStorageAndFirestore st fn rp mt content true true).2.blobs =
      st.blobs ∧
    (UploadFileToStorageAndFirestore st fn rp mt content true true).2.folders =
      st.folders ++ [{ id := st.nextId, name := fn, createdAt := st.now }] := by
  have hb : (fn == "") = false := beq_eq_false_iff_ne.mpr hfn
  have hres : resolveFolder st fn =
      (some st.nextId,
        { st with
            folders := st.folders ++
              [{ id := st.nextId, name := fn, createdAt := st.now }],
            nextId := st.nextId + 1 }) := by
    simp only [resolveFolder, hb, Bool.false_eq_true, if_false, hnew]
  have h1 := upload_dedup_hit st fn rp mt content true true e hhit
  rw [h1, hres]
  exact ⟨rfl, rfl, rfl, rfl⟩

theorem claim3_amended_folder_created_on_dedup_hit_witness :
    (¬ "NewLabel" = "") ∧
    exSt1.folders.find? (fun f => f.name == "NewLabel") = none ∧
    exSt1.files.find? (fun f => f.hash == CalculateFileHash [1]) =
      some exFile1 ∧
    ((UploadFileToStorageAndFirestore exSt1 "NewLabel" "b/x.jpg" "image/png"
        [1] true true).1 = Except.ok exFile1.downloadUrl ∧
      (UploadFileToStorageAndFirestore exSt1 "NewLabel" "b/x.jpg" "image/png"
        [1] true true).2.files = exSt1.files ∧
      (UploadFileToStorageAndFirestore exSt1 "NewLabel" "b/x.jpg" "image/png"
        [1] true true).2.blobs = exSt1.blobs ∧
      (UploadFileToStorageAndFirestore exSt1 "NewLabel" "b/x.jpg" "image/png"
        [1] true true).2.folders = exSt1.folders ++
          [{ id := exSt1.nextId, name := "NewLabel",
             createdAt := exSt1.now }]) :=
  ⟨by decide, by decide, by decide,
    claim3_amended_folder_created_on_dedup_hit exSt1 "NewLabel" "b/x.jpg"
      "image/png" [1] exFile1 (by decide) (by decide) (by decide)⟩

/-! ## Sorting and membership facts for the query engine -/

theorem mem_insertDesc (x a : FileMetadata) (l : List FileMetadata) :
    a ∈ insertDesc x l ↔ a = x ∨ a ∈ l := by
  induction l with
  | nil => simp [insertDesc]
  | cons y ys ih =>
    unfold insertDesc
    split
    · simp only [List.mem_cons, ih]
      tauto
    · simp only [List.mem_cons]

theorem mem_sortDesc (a : FileMetadata) (l : List FileMetadata) :
    a ∈ sortDesc l ↔ a ∈ l := by
  induction l with
  | nil => exact Iff.rfl
  | cons x xs ih =>
    unfold sortDesc
    rw [mem_insertDesc, ih, List.mem_cons]

theorem length_insertDesc (x : FileMetadata) (l : List FileMetadata) :
    (insertDesc x l).length = l.length + 1 := by
  induction l with
  | nil => rfl
  | cons y ys ih =>
    unfold insertDesc
    split
    · simp only [List.length_cons, ih]
    · simp only [List.length_cons]

theorem length_sortDesc (l : List FileMetadata) :
    (sortDesc l).length = l.length := by
  induction l with
  | nil => rfl
  | cons x xs ih =>
    unfold sortDesc
    rw [length_insertDesc, ih, List.length_cons]

/-- `chLt l []` is always false. -/
theorem chLt_nil_right (l : List Char) : chLt l [] = false := by
  cases l <;> rfl

/-- A string followed by anything never compares strictly below itself. -/
theorem chLt_append_left (l r : List Char) : chLt (l ++ r) l = false := by
  induction l with
  | nil => exact chLt_nil_right r
  | cons c cs ih =>
    show chLt (c :: (cs ++ r)) (c :: cs) = false
    unfold chLt
    rw [if_neg (lt_irrefl c.toNat), if_neg (lt_irrefl c.toNat)]
    exact ih

/-- Lexicographically, a string is at most any of its extensions. -/
theorem strLeB_pre (p r : String) : strLeB p (p ++ r) = true := by
  show (!(chLt (p ++ r).data p.data)) = true
  rw [String.data_append, chLt_append_left]
  rfl

/-- With no cursor and a page size at least the whole collection, the list
call returns the entire sorted candidate set. -/
theorem listPage_eq_sortDesc (files : List FileMetadata) (fid : Option Nat)
    (ps : Nat) (ft : String) (hps : files.length ≤ ps) :
    listPage files fid ps ft = sortDesc (candidatesOf files fid ft) := by
  show (sortDesc (candidatesOf files fid ft)).take ps =
    sortDesc (candidatesOf files fid ft)
  apply List.take_of_length_le
  rw [length_sortDesc]
  exact le_trans (List.length_filter_le _ _) hps

theorem mem_listPage (files : List FileMetadata) (fid : Option Nat)
    (ps : Nat) (ft : String) (hps : files.length ≤ ps) (f : FileMetadata) :
    f ∈ listPage files fid ps ft ↔
      f ∈ files ∧ f.folderId = fid ∧ mimeTypePasses ft f.mimeType = true := by
  rw [listPage_eq_sortDesc files fid ps ft hps, mem_sortDesc]
  unfold candidatesOf
  rw [List.mem_filter, Bool.and_eq_true, beq_iff_eq]

/-! ## C5: the mime range filter versus top-level MIME categories -/

/-- C5 counterexample: the record `exOdd`, whose contentType `"image1/fake"`
does not have top-level MIME category `image`, is nevertheless returned by
`list` with typeFilter `image`, because the backend's lexicographic range
`["image/", "imagf")` over-approximates the `image/` prefix. -/
theorem claim5_counterexample :
    exOdd ∈ listPage [exFile1, exOdd] (some 0) 10 "image" ∧
    getFileType exOdd.mimeType ≠ "image" := by
  refine ⟨by decide, by decide⟩

/-- C5 amended: the image/video filters select the lexicographic mime ranges
`["image/", "imagf")` / `["video/", "videp")`, which contain every record of
the corresponding top-level MIME category but also admit other contentTypes
(see the counterexample).  Restricted to a folder whose records all have
contentTypes of the form `image/*` or `video/*`, the filters are exact: the
image-filtered result contains only image records, the video-filtered one
only video records, and their union is the unfiltered result set. -/
theorem claim5_amended_filter_partition (files : List FileMetadata)
    (fid : Option Nat) (ps : Nat) (hps : files.length ≤ ps)
    (honly : ∀ f ∈ files, f.folderId = fid →
      (∃ r, f.mimeType = "image/" ++ r) ∨ (∃ r, f.mimeType = "video/" ++ r)) :
    (∀ f ∈ listPage files fid ps "image", getFileType f.mimeType = "image") ∧
    (∀ f ∈ listPage files fid ps "video", getFileType f.mimeType = "video") ∧
    (∀ f, f ∈ listPage files fid ps "all" ↔
      (f ∈ listPage files fid ps "image" ∨
        f ∈ listPage files fid ps "video")) := by
  have himg : ∀ r : String, mimeTypePasses "image" ("image/" ++ r) = true := by
    intro r
    show (strLeB "image/" ("image/" ++ r) &&
      strLtB ("image/" ++ r) "imagf") = true
    rw [strLeB_pre]
    rfl
  have himgv : ∀ r : String, mimeTypePasses "image" ("video/" ++ r) = false :=
    fun r => rfl
  have hvid : ∀ r : String, mimeTypePasses "video" ("video/" ++ r) = true := by
    intro r
    show (strLeB "video/" ("video/" ++ r) &&
      strLtB ("video/" ++ r) "videp") = true
    rw [strLeB_pre]
    rfl
  have hvidi : ∀ r : String, mimeTypePasses "video" ("image/" ++ r) = false :=
    fun r => rfl
  have hgimg : ∀ r : String, getFileType ("image/" ++ r) = "image" :=
    fun r => rfl
  have hgvid : ∀ r : String, getFileType ("video/" ++ r) = "video" :=
    fun r => rfl
  refine ⟨?_, ?_, ?_⟩
  · intro f hf
    rw [mem_listPage files fid ps "image" hps] at hf
    obtain ⟨hin, hfid, hpass⟩ := hf
    rcases honly f hin hfid with ⟨r, hr⟩ | ⟨r, hr⟩
    · rw [hr]; exact hgimg r
    · rw [hr] at hpass
      rw [himgv r] at hpass
      exact absurd hpass (by simp)
  · intro f hf
    rw [mem_listPage files fid ps "video" hps] at hf
    obtain ⟨hin, hfid, hpass⟩ := hf
    rcases honly f hin hfid with ⟨r, hr⟩ | ⟨r, hr⟩
    · rw [hr] at hpass
      rw [hvidi r] at hpass
      exact absurd hpass (by simp)
    · rw [hr]; exact hgvid r
  · intro f
    rw [mem_listPage files fid ps "all" hps,
      mem_listPage files fid ps "image" hps,
      mem_listPage files fid ps "video" hps]
    constructor
    · rintro ⟨hin, hfid, -⟩
      rcases honly f hin hfid with ⟨r, hr⟩ | ⟨r, hr⟩
      · exact Or.inl ⟨hin, hfid, by rw [hr]; exact himg r⟩
      · exact Or.inr ⟨hin, hfid, by rw [hr]; exact hvid r⟩
    · rintro (⟨hin, hfid, -⟩ | ⟨hin, hfid, -⟩) <;>
        exact ⟨hin, hfid, rfl⟩

theorem claim5_amended_filter_partition_witness :
    (([exFile1] : List FileMetadata).length ≤ 5 ∧
      ∀ f ∈ ([exFile1] : List FileMetadata), f.folderId = some 0 →
        (∃ r, f.mimeType = "image/" ++ r) ∨
        (∃ r, f.mimeType = "video/" ++ r)) ∧
    ((∀ f ∈ listPage [exFile1] (some 0) 5 "image",
        getFileType f.mimeType = "image") ∧
      (∀ f ∈ listPage [exFile1] (some 0) 5 "video",
        getFileType f.mimeType = "video") ∧
      (∀ f, f ∈ listPage [exFile1] (some 0) 5 "all" ↔
        (f ∈ listPage [exFile1] (some 0) 5 "image" ∨
          f ∈ listPage [exFile1] (some 0) 5 "video"))) := by
  have honly : ∀ f ∈ ([exFile1] : List FileMetadata), f.folderId = some 0 →
      (∃ r, f.mimeType = "image/" ++ r) ∨
      (∃ r, f.mimeType = "video/" ++ r) := by
    intro f hf _
    rw [List.mem_singleton] at hf
    exact Or.inl ⟨"jpeg", by rw [hf]; rfl⟩
  exact ⟨⟨by decide, honly⟩,
    claim5_amended_filter_partition [exFile1] (some 0) 5 (by decide) honly⟩

/-! ## C4: ordering and the cursor chain -/

theorem keyLt_irrefl (a : FileMetadata) : keyLt a a = false := by
  simp [keyLt]

theorem keyLt_asymm (a b : FileMetadata) (h : keyLt a b = true) :
    keyLt b a = false := by
  rw [Bool.eq_false_iff]
  intro hba
  simp only [keyLt, Bool.or_eq_true, Bool.and_eq_true, decide_eq_true_eq,
    beq_iff_eq] at h hba
  omega

theorem insertDesc_append (x : FileMetadata) (l : List FileMetadata)
    (h : ∀ y ∈ l, keyLt x y = true) : insertDesc x l = l ++ [x] := by
  induction l with
  | nil => rfl
  | cons y ys ih =>
    unfold insertDesc
    rw [if_pos (h y (List.mem_cons_self y ys))]
    rw [ih (fun z hz => h z (List.mem_cons_of_mem y hz))]
    rfl

/-- Sorting an already strictly ascending list newest-last reverses it. -/
theorem sortDesc_of_ascending (l : List FileMetadata)
    (h : l.Pairwise (fun a b => keyLt a b = true)) :
    sortDesc l = l.reverse := by
  induction l with
  | nil => rfl
  | cons x xs ih =>
    rw [List.pairwise_cons] at h
    unfold sortDesc
    rw [ih h.2,
      insertDesc_append x xs.reverse
        (fun y hy => h.1 y (List.mem_reverse.mp hy)),
      List.reverse_cons]

/-- On a strictly descending list, resuming strictly after the boundary
record `snap` yields exactly the suffix following `snap`. -/
theorem filter_after_snap (u v : List FileMetadata) (snap : FileMetadata)
    (hpair : (u ++ snap :: v).Pairwise (fun a b => keyLt b a = true)) :
    (u ++ snap :: v).filter (fun r => keyLt r snap) = v := by
  rw [List.filter_append]
  rw [List.pairwise_append] at hpair
  obtain ⟨hu, hsv, hcross⟩ := hpair
  rw [List.pairwise_cons] at hsv
  have hufilter : u.filter (fun r => keyLt r snap) = [] := by
    rw [List.filter_eq_nil_iff]
    intro a ha
    have h1 : keyLt snap a = true :=
      hcross a ha snap (List.mem_cons_self snap v)
    rw [keyLt_asymm snap a h1]
    simp
  have hvfilter : (snap :: v).filter (fun r => keyLt r snap) = v := by
    rw [List.filter_cons, if_neg (by simp [keyLt_irrefl])]
    exact List.filter_eq_self.mpr (fun b hb => hsv.1 b hb)
  rw [hufilter, hvfilter]
  rfl

/-- With globally unique document ids, looking a record's id up in the
collection returns that record. -/
theorem find?_id_of_mem (files : List FileMetadata) (r : FileMetadata)
    (hmem : r ∈ files) (hnd : (files.map (fun f => f.id)).Nodup) :
    files.find? (fun f => f.id == r.id) = some r := by
  induction files with
  | nil => cases hmem
  | cons a t ih =>
    rw [List.map_cons, List.nodup_cons] at hnd
    rcases List.mem_cons.mp hmem with heq | hmemt
    · subst heq
      exact List.find?_cons_of_pos t (by simp)
    · have hne : a.id ≠ r.id := by
        intro hcontra
        exact hnd.1 (hcontra ▸ List.mem_map_of_mem (fun f => f.id) hmemt)
      rw [List.find?_cons_of_neg t (by simp [hne])]
      exact ih hmemt hnd.2

/-- The cursor chain walks a strictly descending sorted candidate list one
record per call: starting after the prefix consumed so far, `k` further
calls return the next `k` records of the suffix. -/
theorem chain_go (files : List FileMetadata) (fid : Option Nat) (ft : String)
    (s : List FileMetadata)
    (hsort : sortDesc (candidatesOf files fid ft) = s)
    (hpair : s.Pairwise (fun a b => keyLt b a = true))
    (hnd : (files.map (fun f => f.id)).Nodup)
    (hsub : ∀ r ∈ s, r ∈ files) :
    ∀ (k : Nat) (cur : Option Nat) (v : List FileMetadata),
      ((cur = none ∧ s = v) ∨
        (∃ u lastu, s = u ++ lastu :: v ∧ cur = some lastu.id)) →
      listChain files fid 1 ft k cur = v.take k := by
  intro k
  induction k with
  | zero => intro cur v hpos; rfl
  | succ k ih =>
    intro cur v hpos
    have hrest : resolveCursor files s cur = Except.ok v := by
      rcases hpos with ⟨hc, hv⟩ | ⟨u, lastu, hsplit, hc⟩
      · subst hc; subst hv; rfl
      · subst hc
        have hlmem : lastu ∈ files := by
          apply hsub
          rw [hsplit]
          exact List.mem_append_right u (List.mem_cons_self _ _)
        have hfd := find?_id_of_mem files lastu hlmem hnd
        have hsome : resolveCursor files s (some lastu.id) =
            Except.ok (s.filter (fun r => keyLt r lastu)) := by
          show (match files.find? (fun f => f.id == lastu.id) with
            | none =>
              (Except.error "failed to get last document snapshot" :
                Except String (List FileMetadata))
            | some snap => Except.ok (s.filter (fun r => keyLt r snap))) =
            Except.ok (s.filter (fun r => keyLt r lastu))
          rw [hfd]
        rw [hsome, hsplit, filter_after_snap u v lastu (hsplit ▸ hpair)]
    have hcall : ListFilesFromFirestore files fid 1 cur ft =
        Except.ok (v.take 1, (v.take 1).getLast?.map (fun f => f.id)) := by
      unfold ListFilesFromFirestore
      rw [hsort, hrest]
    cases v with
    | nil =>
      unfold listChain
      rw [hcall]
      rfl
    | cons r v' =>
      have hpos' : ∃ u', s = u' ++ r :: v' := by
        rcases hpos with ⟨hc, hv⟩ | ⟨u, lastu, hsplit, hc⟩
        · exact ⟨[], by simpa using hv⟩
        · refine ⟨u ++ [lastu], ?_⟩
          rw [hsplit, List.append_assoc]
          rfl
      obtain ⟨u', hu'⟩ := hpos'
      unfold listChain
      rw [hcall]
      show [r] ++ listChain files fid 1 ft k (some r.id) =
        (r :: v').take (k + 1)
      rw [ih (some r.id) v' (Or.inr ⟨u', r, hu', rfl⟩),
        List.take_succ_cons]
      rfl

/-- C4: with unique document ids and a folder whose candidate records have
strictly increasing creation times, `N` successive list calls with pageSize
1 following the returned cursors yield the records newest-first: the reverse
of the insertion order (tN, tN-1, ..., t1).  The sort key is createdAt with
the document id as the stable tie-break. -/
theorem claim4_pagination_ordering (files : List FileMetadata)
    (fid : Option Nat)
    (hnd : (files.map (fun f => f.id)).Nodup)
    (hasc : (candidatesOf files fid "all").Pairwise
      (fun a b => a.createdAt < b.createdAt)) :
    listChain files fid 1 "all" (candidatesOf files fid "all").length none =
      (candidatesOf files fid "all").reverse := by
  have hkey : (candidatesOf files fid "all").Pairwise
      (fun a b => keyLt a b = true) := by
    refine hasc.imp ?_
    intro a b hab
    simp [keyLt, hab]
  have hsort := sortDesc_of_ascending _ hkey
  have hpair : (candidatesOf files fid "all").reverse.Pairwise
      (fun a b => keyLt b a = true) := List.pairwise_reverse.mpr hkey
  have hsub : ∀ r ∈ (candidatesOf files fid "all").reverse, r ∈ files := by
    intro r hr
    have hr' := List.mem_reverse.mp hr
    unfold candidatesOf at hr'
    exact (List.mem_filter.mp hr').1
  have hmain := chain_go files fid "all"
    ((candidatesOf files fid "all").reverse) hsort hpair hnd hsub
    (candidatesOf files fid "all").length none
    ((candidatesOf files fid "all").reverse) (Or.inl ⟨rfl, rfl⟩)
  rw [hmain]
  apply List.take_of_length_le
  rw [List.length_reverse]

theorem claim4_pagination_ordering_witness :
    ((([mkFile 1 1, mkFile 2 2, mkFile 3 3] : List FileMetadata).map
        (fun f => f.id)).Nodup ∧
      (candidatesOf [mkFile 1 1, mkFile 2 2, mkFile 3 3] (some 0)
        "all").Pairwise (fun a b => a.createdAt < b.createdAt)) ∧
    listChain [mkFile 1 1, mkFile 2 2, mkFile 3 3] (some 0) 1 "all"
        (candidatesOf [mkFile 1 1, mkFile 2 2, mkFile 3 3] (some 0)
          "all").length none =
      (candidatesOf [mkFile 1 1, mkFile 2 2, mkFile 3 3] (some 0)
        "all").reverse :=
  ⟨⟨by decide, by decide⟩,
    claim4_pagination_ordering [mkFile 1 1, mkFile 2 2, mkFile 3 3] (some 0)
      (by decide) (by decide)⟩

/-! ## C6: the forward discovery walk versus iterated goToNext -/

theorem iterNext_of_fix (files : List FileMetadata) (fid : Option Nat)
    (s : FolderPageState) (h : handleNextPage files fid s = s) :
    ∀ k, iterNext files fid k s = s := by
  intro k
  induction k with
  | zero => rfl
  | succ k ih =>
    show iterNext files fid k (handleNextPage files fid s) = s
    rw [h]
    exact ih

/-- One step of `handleNextPage` when the current query data carries a
non-empty next token. -/
theorem handleNextPage_of_some (files : List FileMetadata) (fid : Option Nat)
    (s : FolderPageState) (page : List FileMetadata) (t : Nat)
    (hf : fetchPage files fid s.filter s.currentPageToken = some (page, some t)) :
    handleNextPage files fid s =
      { s with
          previousPageTokens := s.previousPageTokens ++ [s.currentPageToken],
          currentPageToken := some t,
          currentPageNumber := s.currentPageNumber + 1,
          pageTokenMap :=
            mapSet s.pageTokenMap (s.currentPageNumber + 1) (some t),
          estimatedTotalPages :=
            if s.estimatedTotalPages < s.currentPageNumber + 1 then
              s.currentPageNumber + 1 + 2
            else s.estimatedTotalPages } := by
  unfold handleNextPage
  rw [hf]

/-- The forward discovery walk computes exactly the navigation core of
iterating `goToNext`, and iterating `goToNext` never changes the filter. -/
theorem forwardWalk_eq_iterNext (files : List FileMetadata) (fid : Option Nat) :
    ∀ (fuel : Nat) (s : FolderPageState),
      forwardWalk files fid s.filter fuel s.currentPageNumber
        s.currentPageToken s.previousPageTokens s.pageTokenMap =
        core (iterNext files fid fuel s) ∧
      (iterNext files fid fuel s).filter = s.filter := by
  intro fuel
  induction fuel with
  | zero => intro s; exact ⟨rfl, rfl⟩
  | succ fuel ih =>
    intro s
    cases hf : fetchPage files fid s.filter s.currentPageToken with
    | none =>
      have hfix : handleNextPage files fid s = s := by
        unfold handleNextPage; rw [hf]
      have hiter : iterNext files fid (fuel + 1) s = s := by
        show iterNext files fid fuel (handleNextPage files fid s) = s
        rw [hfix]
        exact iterNext_of_fix files fid s hfix fuel
      constructor
      · unfold forwardWalk
        rw [hf, hiter]
        rfl
      · rw [hiter]
    | some pn =>
      obtain ⟨page, next⟩ := pn
      cases next with
      | none =>
        have hfix : handleNextPage files fid s = s := by
          unfold handleNextPage; rw [hf]
        have hiter : iterNext files fid (fuel + 1) s = s := by
          show iterNext files fid fuel (handleNextPage files fid s) = s
          rw [hfix]
          exact iterNext_of_fix files fid s hfix fuel
        constructor
        · unfold forwardWalk
          rw [hf, hiter]
          rfl
        · rw [hiter]
      | some t =>
        have hs' := handleNextPage_of_some files fid s page t hf
        have hih := ih (handleNextPage files fid s)
        rw [hs'] at hih
        constructor
        · unfold forwardWalk
          rw [hf]
          show forwardWalk files fid s.filter fuel (s.currentPageNumber + 1)
              (some t) (s.previousPageTokens ++ [s.currentPageToken])
              (mapSet s.pageTokenMap (s.currentPageNumber + 1) (some t)) =
            core (iterNext files fid fuel (handleNextPage files fid s))
          rw [hs']
          exact hih.1
        · show (iterNext files fid fuel (handleNextPage files fid s)).filter =
            s.filter
          rw [hs']
          exact hih.2

/-- C6 counterexample: for a folder whose only real page is page 1 (a single
record, pageSize 20), `goToPage(3)` from page 1 does not stop at the last
real page: the walk advances past it (the engine hands out a cursor on the
final non-empty page) and settles on page 2, which displays zero records,
while page 1 displays the record. -/
theorem claim6_counterexample :
    (handlePageClick [exFile1] (some 0) initialFolderPageState
      3).currentPageNumber = 2 ∧
    shownRecords [exFile1] (some 0)
      (handlePageClick [exFile1] (some 0) initialFolderPageState 3) = [] ∧
    shownRecords [exFile1] (some 0) initialFolderPageState = [exFile1] := by
  refine ⟨by decide, by decide, by decide⟩

/-- C6 amended: a `goToPage(n)` jump from the freshly mounted page-1 state
(`n` beyond the cached pages) performs the sequential discovery walk,
recording each discovered cursor, and stops upon reaching page `n` or upon
the first query whose nextCursor is empty — which, by the engine's cursor
semantics, is one page beyond the last non-empty page, not the last real
page.  The resulting navigation state (page, cursor, history, cursor cache)
and the records shown equal those obtained by calling `goToNext` `n - 1`
times from page 1. -/
theorem claim6_amended_forward_jump (files : List FileMetadata)
    (fid : Option Nat) (n : Nat) (h1 : 1 ≤ n) :
    core (handlePageClick files fid initialFolderPageState n) =
      core (iterNext files fid (n - 1) initialFolderPageState) ∧
    shownRecords files fid
        (handlePageClick files fid initialFolderPageState n) =
      shownRecords files fid
        (iterNext files fid (n - 1) initialFolderPageState) := by
  rcases Nat.lt_or_ge n 2 with h2 | h2
  · have hn : n = 1 := by omega
    subst hn
    exact ⟨rfl, rfl⟩
  · have hne : (n == (1 : Nat)) = false := by
      rw [beq_eq_false_iff_ne]
      omega
    have hlook : mapLookup initialFolderPageState.pageTokenMap n = none := by
      show (List.find? (fun kv => kv.1 == n) [(1, (none : Option Nat))]).map
        (fun kv => kv.2) = none
      rw [List.find?_cons_of_neg _ (by simp; omega)]
      rfl
    have hclick : handlePageClick files fid initialFolderPageState n =
        navigateForwardTo files fid initialFolderPageState n := by
      unfold handlePageClick
      rw [if_neg (by simp [initialFolderPageState]; omega), hlook]
      rw [if_pos (by show 1 < n; omega)]
    have hwalk := forwardWalk_eq_iterNext files fid (n - 1)
      initialFolderPageState
    have hcore : core (handlePageClick files fid initialFolderPageState n) =
        core (iterNext files fid (n - 1) initialFolderPageState) := by
      rw [hclick]
      show forwardWalk files fid initialFolderPageState.filter (n - 1)
          initialFolderPageState.currentPageNumber
          initialFolderPageState.currentPageToken
          initialFolderPageState.previousPageTokens
          initialFolderPageState.pageTokenMap =
        core (iterNext files fid (n - 1) initialFolderPageState)
      exact hwalk.1
    refine ⟨hcore, ?_⟩
    have htok : (handlePageClick files fid initialFolderPageState
        n).currentPageToken =
        (iterNext files fid (n - 1)
          initialFolderPageState).currentPageToken :=
      congrArg (fun q => q.2.1) hcore
    have hfil1 : (handlePageClick files fid initialFolderPageState
        n).filter = "all" := by
      rw [hclick]
      rfl
    have hfil2 : (iterNext files fid (n - 1)
        initialFolderPageState).filter = "all" := hwalk.2
    unfold shownRecords
    rw [htok, hfil1, hfil2]

theorem claim6_amended_forward_jump_witness :
    1 ≤ 3 ∧
    (core (handlePageClick [exFile1] (some 0) initialFolderPageState 3) =
      core (iterNext [exFile1] (some 0) 2 initialFolderPageState) ∧
    shownRecords [exFile1] (some 0)
        (handlePageClick [exFile1] (some 0) initialFolderPageState 3) =
      shownRecords [exFile1] (some 0)
        (iterNext [exFile1] (some 0) 2 initialFolderPageState)) :=
  ⟨by decide,
    claim6_amended_forward_jump [exFile1] (some 0) 3 (by decide)⟩

/-! ## C7: cursor-cache invariants -/

theorem mapLookup_cons (a : Nat × Option Nat) (t : List (Nat × Option Nat))
    (j : Nat) :
    mapLookup (a :: t) j = if a.1 = j then some a.2 else mapLookup t j := by
  by_cases h : a.1 = j
  · unfold mapLookup
    rw [List.find?_cons_of_pos _ (by simp [h]), if_pos h]
    rfl
  · unfold mapLookup
    rw [List.find?_cons_of_neg _ (by simp [h]), if_neg h]

theorem mapLookup_nil (j : Nat) : mapLookup [] j = none := rfl

/-- Updating key `k` in place leaves every other key's binding unchanged. -/
theorem mapLookup_mapUpd_ne (k : Nat) (v : Option Nat) (j : Nat) (hkj : k ≠ j)
    (m : List (Nat × Option Nat)) :
    mapLookup (m.map (fun kv => if kv.1 == k then (k, v) else kv)) j =
      mapLookup m j := by
  induction m with
  | nil => rfl
  | cons a t ih =>
    by_cases ha : a.1 = k
    · have hh : (if a.1 == k then ((k, v) : Nat × Option Nat) else a) =
          (k, v) := by simp [ha]
      rw [List.map_cons, hh, mapLookup_cons, mapLookup_cons,
        if_neg (by simpa using hkj), if_neg (by rw [ha]; exact hkj)]
      exact ih
    · have hh : (if a.1 == k then ((k, v) : Nat × Option Nat) else a) = a := by
        simp [ha]
      rw [List.map_cons, hh, mapLookup_cons, mapLookup_cons]
      by_cases haj : a.1 = j
      · rw [if_pos haj, if_pos haj]
      · rw [if_neg haj, if_neg haj]
        exact ih

/-- In-place update behaviour of `mapSet` when the key is present. -/
theorem mapLookup_mapUpd (k : Nat) (v : Option Nat) (j : Nat) :
    ∀ m : List (Nat × Option Nat),
      (m.find? (fun kv => kv.1 == k)).isSome = true →
      mapLookup (m.map (fun kv => if kv.1 == k then (k, v) else kv)) j =
        if k = j then some v else mapLookup m j := by
  intro m
  induction m with
  | nil => intro h; simp [List.find?] at h
  | cons a t ih =>
    intro hfind
    by_cases ha : a.1 = k
    · have hh : (if a.1 == k then ((k, v) : Nat × Option Nat) else a) =
          (k, v) := by simp [ha]
      rw [List.map_cons, hh, mapLookup_cons]
      by_cases hkj : k = j
      · rw [if_pos hkj, if_pos hkj]
      · rw [if_neg hkj, if_neg hkj, mapLookup_cons,
          if_neg (by rw [ha]; exact hkj)]
        exact mapLookup_mapUpd_ne k v j hkj t
    · have hh : (if a.1 == k then ((k, v) : Nat × Option Nat) else a) = a := by
        simp [ha]
      rw [List.map_cons, hh, mapLookup_cons, mapLookup_cons]
      rw [List.find?_cons_of_neg _ (by simp [ha])] at hfind
      by_cases haj : a.1 = j
      · have hkj : ¬ k = j := fun hc => ha (by rw [hc, haj])
        rw [if_pos haj, if_neg hkj, if_pos haj]
      · rw [if_neg haj, if_neg haj]
        exact ih hfind

/-- The `Map.set` lookup law: the set key maps to the new value, every other
key keeps its binding. -/
theorem mapLookup_mapSet (m : List (Nat × Option Nat)) (k : Nat)
    (v : Option Nat) (j : Nat) :
    mapLookup (mapSet m k v) j = if k = j then some v else mapLookup m j := by
  unfold mapSet
  cases hfind : (m.find? (fun kv => kv.1 == k)).isSome with
  | true =>
    rw [if_pos rfl]
    exact mapLookup_mapUpd k v j m hfind
  | false =>
    rw [if_neg (by simp)]
    unfold mapLookup
    rw [List.find?_append]
    by_cases hkj : k = j
    · subst hkj
      have hm : m.find? (fun kv => kv.1 == k) = none := by
        cases hcase : m.find? (fun kv => kv.1 == k) with
        | none => rfl
        | some x => rw [hcase] at hfind; simp at hfind
      rw [hm, if_pos rfl]
      simp [List.find?]
    · rw [if_neg hkj]
      have h2 : List.find? (fun kv => kv.1 == j) [(k, v)] = none := by
        rw [List.find?_cons_of_neg _ (by simp [hkj])]
        rfl
      rw [h2, Option.or_none]

theorem length_filterMap_of_forall_isSome {α β : Type}
    (f : α → Option β) (l : List α) (h : ∀ x ∈ l, (f x).isSome = true) :
    (l.filterMap f).length = l.length := by
  induction l with
  | nil => rfl
  | cons a t ih =>
    rw [List.filterMap_cons]
    cases hfa : f a with
    | none =>
      have := h a (List.mem_cons_self a t)
      rw [hfa] at this
      simp at this
    | some b =>
      rw [List.length_cons, List.length_cons,
        ih (fun x hx => h x (List.mem_cons_of_mem a hx))]

/-- The seed quadruple of a freshly mounted page (also the post-reset state)
satisfies the invariant. -/
theorem stepInv_init :
    stepInv (1, none, [none], [(1, (none : Option Nat))]) := by
  refine ⟨rfl, le_refl 1, rfl, fun _ => rfl, ?_, ⟨1, le_refl 1, ?_⟩⟩
  · intro h
    simp at h
  · intro i
    rw [mapLookup_cons]
    by_cases h1 : 1 = i
    · rw [if_pos h1]
      simp
      omega
    · rw [if_neg h1, mapLookup_nil]
      simp
      omega

/-- A single goToNext-style advance preserves the invariant. -/
theorem stepInv_next (cp : Nat) (ct : Option Nat) (prevs : List (Option Nat))
    (m : List (Nat × Option Nat)) (t : Nat) (h : stepInv (cp, ct, prevs, m)) :
    stepInv (cp + 1, some t, prevs ++ [ct],
      mapSet m (cp + 1) (some t)) := by
  obtain ⟨hA, hB, hC, hD, hF, k, hk, hE⟩ := h
  refine ⟨?_, by omega, ?_, by omega, ?_, ?_⟩
  · rw [mapLookup_mapSet, if_neg (by omega)]
    exact hA
  · rw [List.length_append, hC]
    rfl
  · intro hlen
    rw [List.getElem?_append]
    by_cases h2 : 1 < prevs.length
    · rw [if_pos h2]
      exact hF (by omega)
    · rw [if_neg h2]
      have hl1 : prevs.length = 1 := by omega
      have hct : ct = none := hD (by omega)
      subst hct
      rw [hl1]
      rfl
  · by_cases hck : cp + 1 ≤ k
    · refine ⟨k, by omega, ?_⟩
      intro i
      rw [mapLookup_mapSet]
      by_cases hik : cp + 1 = i
      · rw [if_pos hik]
        simp
        omega
      · rw [if_neg hik, hE i]
    · refine ⟨cp + 1, by omega, ?_⟩
      intro i
      rw [mapLookup_mapSet]
      by_cases hik : cp + 1 = i
      · rw [if_pos hik]
        simp
        omega
      · rw [if_neg hik, hE i]
        omega

/-- The forward discovery walk preserves the invariant. -/
theorem forwardWalk_stepInv (files : List FileMetadata) (fid : Option Nat)
    (filt : String) :
    ∀ (fuel cp : Nat) (ct : Option Nat) (prevs : List (Option Nat))
      (m : List (Nat × Option Nat)), stepInv (cp, ct, prevs, m) →
      stepInv (forwardWalk files fid filt fuel cp ct prevs m) := by
  intro fuel
  induction fuel with
  | zero => intro cp ct prevs m h; exact h
  | succ fuel ih =>
    intro cp ct prevs m h
    unfold forwardWalk
    cases hf : fetchPage files fid filt ct with
    | none => exact h
    | some pn =>
      obtain ⟨page, next⟩ := pn
      cases next with
      | none => exact h
      | some t => exact ih _ _ _ _ (stepInv_next cp ct prevs m t h)

theorem inv_handleNextPage (files : List FileMetadata) (fid : Option Nat)
    (s : FolderPageState) (h : stepInv (core s)) :
    stepInv (core (handleNextPage files fid s)) := by
  cases hf : fetchPage files fid s.filter s.currentPageToken with
  | none =>
    have hfix : handleNextPage files fid s = s := by
      unfold handleNextPage; rw [hf]
    rw [hfix]
    exact h
  | some pn =>
    obtain ⟨page, next⟩ := pn
    cases next with
    | none =>
      have hfix : handleNextPage files fid s = s := by
        unfold handleNextPage; rw [hf]
      rw [hfix]
      exact h
    | some t =>
      rw [handleNextPage_of_some files fid s page t hf]
      exact stepInv_next s.currentPageNumber s.currentPageToken
        s.previousPageTokens s.pageTokenMap t h

theorem inv_handlePreviousPage (s : FolderPageState) (h : stepInv (core s))
    (hguard : hasPreviousPage s = true) :
    stepInv (core (handlePreviousPage s)) := by
  obtain ⟨hA, hB, hC, hD, hF, k, hk, hE⟩ := h
  have hcp2 : 2 ≤ s.currentPageNumber := by
    unfold hasPreviousPage at hguard
    rw [Bool.or_eq_true, Bool.and_eq_true] at hguard
    rcases hguard with hg | ⟨hg1, hg2⟩
    · rw [decide_eq_true_eq] at hg
      omega
    · exfalso
      rw [beq_iff_eq] at hg1
      have hcp1 : s.currentPageNumber = 1 := by omega
      have hctn := hD hcp1
      rw [hctn] at hg2
      simp at hg2
  unfold handlePreviousPage
  rw [if_pos (by omega)]
  show stepInv (s.currentPageNumber - 1,
    (s.previousPageTokens.getLast?).getD none,
    s.previousPageTokens.dropLast, s.pageTokenMap)
  refine ⟨hA, by omega, ?_, ?_, ?_, ⟨k, by omega, hE⟩⟩
  · rw [List.length_dropLast, hC]
  · intro hcp1
    have hlen : s.previousPageTokens.length = 2 := by omega
    have hsnd := hF (by omega)
    rw [List.getLast?_eq_getElem?, hlen]
    show s.previousPageTokens[1]?.getD none = none
    rw [hsnd]
    rfl
  · intro hlen2
    rw [List.getElem?_dropLast]
    rw [List.length_dropLast] at hlen2
    rw [if_pos (by omega)]
    exact hF (by omega)

theorem inv_handlePageClick (files : List FileMetadata) (fid : Option Nat)
    (s : FolderPageState) (n : Nat) (h : stepInv (core s)) (hn : 1 ≤ n) :
    stepInv (core (handlePageClick files fid s n)) := by
  obtain ⟨hA, hB, hC, hD, hF, k, hk, hE⟩ := h
  unfold handlePageClick
  by_cases heq : n = s.currentPageNumber
  · rw [if_pos (by simp [heq])]
    exact ⟨hA, hB, hC, hD, hF, k, hk, hE⟩
  · rw [if_neg (by simp [heq])]
    cases hlook : mapLookup s.pageTokenMap n with
    | some token =>
      have hnk : n ≤ k := ((hE n).mp (by rw [hlook]; rfl)).2
      show stepInv (n, token,
        [none] ++ (List.range' 2 (n - 1)).filterMap
          (fun i =>
            if (mapLookup s.pageTokenMap i).isSome then
              some ((mapLookup s.pageTokenMap (i - 1)).getD none)
            else none),
        s.pageTokenMap)
      have hkeep : ∀ i ∈ List.range' 2 (n - 1),
          ((fun i =>
            if (mapLookup s.pageTokenMap i).isSome then
              some ((mapLookup s.pageTokenMap (i - 1)).getD none)
            else none) i).isSome = true := by
        intro i hi
        rw [List.mem_range'_1] at hi
        have hsome : (mapLookup s.pageTokenMap i).isSome = true :=
          (hE i).mpr (by omega)
        show (if (mapLookup s.pageTokenMap i).isSome = true then
          some ((mapLookup s.pageTokenMap (i - 1)).getD none)
          else none).isSome = true
        rw [if_pos hsome]
        rfl
      have hClen : ([none] ++ (List.range' 2 (n - 1)).filterMap
          (fun i =>
            if (mapLookup s.pageTokenMap i).isSome then
              some ((mapLookup s.pageTokenMap (i - 1)).getD none)
            else none)).length = n := by
        rw [List.length_append,
          length_filterMap_of_forall_isSome _ _ hkeep, List.length_range',
          List.length_singleton]
        omega
      refine ⟨hA, hn, hClen, ?_, ?_, ⟨k, hnk, hE⟩⟩
      · intro hn1
        subst hn1
        rw [hA] at hlook
        injection hlook with hv
        exact hv.symm
      · intro hlen
        rw [hClen] at hlen
        have hr : List.range' 2 (n - 1) = 2 :: List.range' 3 (n - 2) := by
          rw [show n - 1 = (n - 2) + 1 by omega, List.range'_succ]
        rw [hr, List.filterMap_cons]
        have h2some : (mapLookup s.pageTokenMap 2).isSome = true :=
          (hE 2).mpr (by omega)
        rw [if_pos h2some, hA]
        simp
    | none =>
      by_cases hdir : s.currentPageNumber < n
      · rw [if_pos hdir]
        exact forwardWalk_stepInv files fid s.filter
          (n - s.currentPageNumber) s.currentPageNumber s.currentPageToken
          s.previousPageTokens s.pageTokenMap ⟨hA, hB, hC, hD, hF, k, hk, hE⟩
      · rw [if_neg hdir]
        unfold navigateBackwardTo
        rw [if_neg (by omega)]
        show stepInv (n, (mapLookup s.pageTokenMap n).getD none,
          [none] ++ (List.range' 2 (n - 1)).map
            (fun i => (mapLookup s.pageTokenMap (i - 1)).getD none),
          s.pageTokenMap)
        refine ⟨hA, hn, ?_, ?_, ?_, ⟨k, by omega, hE⟩⟩
        · rw [List.length_append, List.length_map, List.length_range',
            List.length_singleton]
          omega
        · intro hn1
          subst hn1
          rw [hA]
          rfl
        · intro hlen
          have hn2 : 2 ≤ n := by
            rw [List.length_append, List.length_map, List.length_range',
              List.length_singleton] at hlen
            omega
          have hr : List.range' 2 (n - 1) = 2 :: List.range' 3 (n - 2) := by
            rw [show n - 1 = (n - 2) + 1 by omega, List.range'_succ]
          rw [hr, List.map_cons]
          show (([none] ++ ((mapLookup s.pageTokenMap 1).getD none) ::
            (List.range' 3 (n - 2)).map
              (fun i => (mapLookup s.pageTokenMap (i - 1)).getD none)))[1]? =
            some none
          rw [hA]
          simp

/-- C7: the pagination cursor cache always maps page 1 to the empty cursor
in every reachable state of a mounted `FolderPage` (a folder change mounts a
fresh component, restarting from the seed state), and every filter-button
click discards the whole cache and reseeds the page-1 state, so no cursor
cached under the previous (folderId, typeFilter) combination survives the
change. -/
theorem claim7_cache_invariants (files : List FileMetadata)
    (fid : Option Nat) :
    (∀ s : FolderPageState, Reachable files fid s →
      mapLookup s.pageTokenMap 1 = some none) ∧
    (∀ (s : FolderPageState) (f : String),
      setFilter f s =
        { s with
            filter := f,
            currentPageToken := none,
            previousPageTokens := [none],
            currentPageNumber := 1,
            pageTokenMap := [(1, none)],
            estimatedTotalPages := 5 }) := by
  constructor
  · intro s hs
    have hinv : stepInv (core s) := by
      induction hs with
      | init => exact stepInv_init
      | next _ ih => exact inv_handleNextPage _ _ _ ih
      | prev _ hg ih => exact inv_handlePreviousPage _ ih hg
      | click _ hn ih => exact inv_handlePageClick _ _ _ _ ih hn
      | filterChange _ _ _ => exact stepInv_init
    exact hinv.1
  · intro s f
    rfl

theorem claim7_cache_invariants_witness :
    mapLookup
      (handleNextPage [exFile1] (some 0)
        initialFolderPageState).pageTokenMap 1 = some none ∧
    setFilter "image" initialFolderPageState =
      { initialFolderPageState with
          filter := "image",
          currentPageToken := none,
          previousPageTokens := [none],
          currentPageNumber := 1,
          pageTokenMap := [(1, none)],
          estimatedTotalPages := 5 } :=
  ⟨(claim7_cache_invariants [exFile1] (some 0)).1 _
      (Reachable.next Reachable.init),
    (claim7_cache_invariants [exFile1] (some 0)).2 initialFolderPageState
      "image"⟩

end DriveGallery
